import Mathlib

/-!
A verification development for the links-notation Python package.

The definitions below are a shallow embedding of the code in
`src/python/links_notation/parser.py` and `src/python/links_notation/link.py`.
Strings are modelled as `List Char`; Python's mutable parser state is passed
explicitly; loops whose progress is data-dependent take a fuel argument that
the wrappers instantiate with a bound large enough for every terminating
Python execution (fuel exhaustion models a non-terminating Python loop).
-/

namespace Lino

/-- Characters removed by Python's `str.strip()` (ASCII whitespace). -/
def pyWsChars : List Char := [' ', '\t', '\n', '\r', '\x0b', '\x0c']

/-- Check whether a character is Python whitespace. -/
def isPyWs (c : Char) : Bool := pyWsChars.contains c

/-- Python `s.strip()`: remove leading and trailing whitespace. -/
def pyStrip (s : List Char) : List Char :=
  ((s.dropWhile isPyWs).reverse.dropWhile isPyWs).reverse

/-- Python `len(line) - len(line.lstrip(" "))`: number of leading spaces. -/
def rawIndentOf (line : List Char) : Nat := (line.takeWhile (· == ' ')).length

/-- The three quote characters recognised by the parser: `"`, `'`, and backtick. -/
def quoteChars : List Char := ['\x22', '\x27', '\x60']

/-- Scanner state used by `_split_lines_respecting_quotes`,
`_find_colon_outside_quotes` and the parenthesis scan of `_extract_next_value`:
the three `in_*` quote flags plus the parenthesis depth (an `Int`, since the
Python code lets it go negative). -/
structure ScanSt where
  inS : Bool
  inD : Bool
  inB : Bool
  depth : Int
deriving DecidableEq, Repr

/-- The initial scanner state: no quotes open, depth 0. -/
def ScanSt.init : ScanSt := ⟨false, false, false, 0⟩

/-- Whether no quote flag is set. -/
def ScanSt.quotesClear (st : ScanSt) : Bool := !st.inS && !st.inD && !st.inB

/-- One step of the quote/parenthesis scanner, shared verbatim by
`_split_lines_respecting_quotes`, `_find_colon_outside_quotes` and the
parenthesised-expression scan in `_extract_next_value` (their `elif` chains
toggle the same flags under the same conditions). Characters that match no
branch leave the state unchanged. -/
def scanStep (st : ScanSt) (c : Char) : ScanSt :=
  if c = '\x22' ∧ !st.inS ∧ !st.inB then { st with inD := !st.inD }
  else if c = '\x27' ∧ !st.inD ∧ !st.inB then { st with inS := !st.inS }
  else if c = '\x60' ∧ !st.inS ∧ !st.inD then { st with inB := !st.inB }
  else if c = '(' ∧ st.quotesClear then { st with depth := st.depth + 1 }
  else if c = ')' ∧ st.quotesClear then { st with depth := st.depth - 1 }
  else st

/-- One step of the quote-only scanner used by the regular-value scan at the
end of `_extract_next_value` (that loop tracks only the three quote flags). -/
def quoteStep (st : ScanSt) (c : Char) : ScanSt :=
  if c = '\x27' ∧ !st.inD ∧ !st.inB then { st with inS := !st.inS }
  else if c = '\x22' ∧ !st.inS ∧ !st.inB then { st with inD := !st.inD }
  else if c = '\x60' ∧ !st.inS ∧ !st.inD then { st with inB := !st.inB }
  else st

/-- Loop of `Parser._split_lines_respecting_quotes`: split at newlines that are
outside quotes and at parenthesis depth ≤ 0, preserving other newlines inside
the current (logical) line. The trailing line is kept only if non-empty. -/
def splitLinesAux : List Char → ScanSt → List Char → List (List Char)
  | [], _, cur => if cur = [] then [] else [cur]
  | c :: rest, st, cur =>
    if c = '\n' ∧ ¬(st.inS ∨ st.inD ∨ st.inB ∨ st.depth > 0) then
      cur :: splitLinesAux rest st []
    else
      splitLinesAux rest (scanStep st c) (cur ++ [c])

/-- Python `Parser._split_lines_respecting_quotes`. -/
def splitLinesRespectingQuotes (text : List Char) : List (List Char) :=
  splitLinesAux text ScanSt.init []

/-- Loop of `Parser._find_colon_outside_quotes`: return the index of the first
colon encountered with all quote flags clear and parenthesis depth exactly 0.
A colon inside quotes or at non-zero depth matches no `elif` branch and leaves
the state unchanged, exactly as in the Python chain. -/
def findColonAux : List Char → ScanSt → Nat → Option Nat
  | [], _, _ => none
  | c :: rest, st, i =>
    if c = ':' ∧ st.quotesClear ∧ st.depth = 0 then some i
    else findColonAux rest (scanStep st c) (i + 1)

/-- Python `Parser._find_colon_outside_quotes` (Python returns `-1` for
"not found"; we model that as `none`). -/
def findColonOutsideQuotes (text : List Char) : Option Nat :=
  findColonAux text ScanSt.init 0

/-- Loop of `Parser._parse_multi_quote_string`: `remaining` is the text after
the `n` opening quotes, `content` the accumulated string value. A run of `2*n`
quote characters is an escape for `n` literal ones; a run of exactly `n` (the
character after it, if any, is not the quote character) closes the string; any
other character is consumed literally. Fuel exhaustion cannot happen for
`n ≥ 1` when the wrapper's fuel is used, since every branch consumes at least
one character. -/
def mqsLoop (q : Char) (n : Nat) : Nat → List Char → List Char → Option (List Char)
  | 0, _, _ => none
  | _ + 1, [], _ => none
  | fuel + 1, c :: rest, content =>
    if (List.replicate (2 * n) q).isPrefixOf (c :: rest) then
      mqsLoop q n fuel ((c :: rest).drop (2 * n)) (content ++ List.replicate n q)
    else if (List.replicate n q).isPrefixOf (c :: rest) then
      if ((c :: rest).drop n).head? = some q then
        mqsLoop q n fuel rest (content ++ [c])
      else
        some content
    else
      mqsLoop q n fuel rest (content ++ [c])

/-- Python `Parser._parse_multi_quote_string text quote_char quote_count`:
parse a string opened by `n` copies of `q`; `none` models Python's `None`
(no opening or no closing quotes found). Note that the two Python branches
after a closing run both `return content`, so trailing text after the close is
ignored here exactly as in the source. -/
def parseMultiQuoteString (text : List Char) (q : Char) (n : Nat) : Option (List Char) :=
  if (List.replicate n q).isPrefixOf text then
    mqsLoop q n (text.length + 1) (text.drop n) []
  else
    none

/-- Identity of a parsed link as produced by `_extract_multi_reference_id`:
Python returns either a plain string (scalar reference) or a list of strings
(multi-reference). -/
inductive RefId where
  | scalar (s : List Char)
  | multi (parts : List (List Char))
deriving DecidableEq, Repr

/-- Python `isinstance(x, list) and len(x) > 1`, the `is_multi_ref` test. -/
def RefId.isMultiGt1 : RefId → Bool
  | .scalar _ => false
  | .multi ps => ps.length > 1

/-- Python truthiness of an id value (non-empty string / non-empty list). -/
def RefId.truthy : RefId → Bool
  | .scalar s => s ≠ []
  | .multi ps => ps ≠ []

/-- A node of the raw parse tree (the Python `dict`s built by
`_parse_line_content` and friends). `idOpt`/`valuesOpt` are `none` when the
corresponding dict key is absent; `children` defaults to `[]` (the code only
ever stores a non-empty children list, and reads it with `get("children", [])`).
`isMultiRef` is stored by the source but never read back. -/
inductive RawItem where
  | mk (idOpt : Option RefId) (valuesOpt : Option (List RawItem))
      (children : List RawItem) (isIndentedId : Bool) (isMultiRef : Bool)

/-- The `"id"` key of a raw item. -/
def RawItem.idOpt : RawItem → Option RefId
  | .mk i _ _ _ _ => i

/-- The `"values"` key of a raw item. -/
def RawItem.valuesOpt : RawItem → Option (List RawItem)
  | .mk _ v _ _ _ => v

/-- The `"children"` key of a raw item (`[]` when absent). -/
def RawItem.children : RawItem → List RawItem
  | .mk _ _ c _ _ => c

/-- The `"is_indented_id"` key of a raw item. -/
def RawItem.isIndentedId : RawItem → Bool
  | .mk _ _ _ b _ => b

/-- Python `element["children"] = children`. -/
def RawItem.withChildren : RawItem → List RawItem → RawItem
  | .mk i v _ b m, ch => .mk i v ch b m

/-- The `Link` class of `link.py`: `_ids` is `None` or a list of reference
strings, `values` a list of child links. The `_is_from_path_combination` flag
only influences formatting, which no claim touches, so it is not modelled. -/
inductive Link where
  | mk (ids : Option (List (List Char))) (values : List Link)

/-- The `_ids` field of a link. -/
def Link.ids : Link → Option (List (List Char))
  | .mk i _ => i

/-- The `values` field of a link. -/
def Link.values : Link → List Link
  | .mk _ v => v

mutual

/-- Decidable equality for links (the derive handler does not support this
nested inductive). -/
def Link.decEq : (a b : Link) → Decidable (a = b)
  | .mk i1 v1, .mk i2 v2 =>
    if hi : i1 = i2 then
      match Link.decEqList v1 v2 with
      | isTrue hv => isTrue (by rw [hi, hv])
      | isFalse hv => isFalse (by intro h; injection h; contradiction)
    else isFalse (by intro h; injection h; contradiction)

/-- Decidable equality for lists of links. -/
def Link.decEqList : (a b : List Link) → Decidable (a = b)
  | [], [] => isTrue rfl
  | [], _ :: _ => isFalse (by intro h; injection h)
  | _ :: _, [] => isFalse (by intro h; injection h)
  | a :: as, b :: bs =>
    match Link.decEq a b, Link.decEqList as bs with
    | isTrue h1, isTrue h2 => isTrue (by rw [h1, h2])
    | isFalse h1, _ => isFalse (by intro h; injection h; contradiction)
    | _, isFalse h2 => isFalse (by intro h; injection h; contradiction)

end

instance : DecidableEq Link := Link.decEq

/-- The `Link` constructor's normalisation of `link_id`: `None` stays absent, a
list is stored as is, a plain string becomes a one-element list. -/
def refIdParts : RefId → List (List Char)
  | .scalar s => [s]
  | .multi ps => ps

/-- Number of leading copies of `q` in `l`. -/
def countLeading (q : Char) (l : List Char) : Nat := (l.takeWhile (· == q)).length

/-- Scan loop for the multi-quote branch of `_extract_next_value`: `suffix` is
`remaining[inner_pos:]` and `ip` is `inner_pos`; returns `after_close_pos` when
a closing run of exactly `n` quotes is found, `none` when the loop falls off
the end (no closing quotes: Python then `break`s out to the other branches). -/
def envQuoteAux (q : Char) (n : Nat) : Nat → List Char → Nat → Option Nat
  | 0, _, _ => none
  | _ + 1, [], _ => none
  | fuel + 1, c :: rest, ip =>
    if (List.replicate (2 * n) q).isPrefixOf (c :: rest) then
      envQuoteAux q n fuel ((c :: rest).drop (2 * n)) (ip + 2 * n)
    else if (List.replicate n q).isPrefixOf (c :: rest) then
      if ((c :: rest).drop n).head? = some q then
        envQuoteAux q n fuel rest (ip + 1)
      else
        some (ip + n)
    else
      envQuoteAux q n fuel rest (ip + 1)

/-- Parenthesis scan of `_extract_next_value` (`while i < len(text) and
paren_depth > 0`), returning the final index `i`. -/
def parenScanAux : List Char → ScanSt → Nat → Nat
  | [], _, i => i
  | c :: rest, st, i =>
    if st.depth > 0 then parenScanAux rest (scanStep st c) (i + 1) else i

/-- Regular-value scan of `_extract_next_value`: read until an unquoted space
(or the end of the text), returning the final index `i`. -/
def regularScanAux : List Char → ScanSt → Nat → Nat
  | [], _, i => i
  | c :: rest, st, i =>
    if c = ' ' ∧ st.quotesClear then i
    else regularScanAux rest (quoteStep st c) (i + 1)

/-- Parenthesised and regular branches of `_extract_next_value` (reached when
the text does not start with a quote character, or after `break` when a
multi-quote string has no closing run). -/
def extractNextValueRest (text : List Char) (start : Nat) : Nat × List Char :=
  if (text.drop start).head? = some '(' then
    let i := parenScanAux (text.drop (start + 1)) ⟨false, false, false, 1⟩ (start + 1)
    (i, (text.drop start).take (i - start))
  else
    let i := regularScanAux (text.drop start) ScanSt.init start
    (i, (text.drop start).take (i - start))

/-- Python `Parser._extract_next_value text start`, returning
`(end_position, value_text)`. -/
def extractNextValue (text : List Char) (start : Nat) : Nat × List Char :=
  if start ≥ text.length then (start, [])
  else
    let remaining := text.drop start
    match remaining.head? with
    | none => (start, [])
    | some c =>
      if quoteChars.contains c then
        let n := countLeading c remaining
        match envQuoteAux c n (remaining.length + 1) (remaining.drop n) n with
        | some acp => (start + acp, remaining.take acp)
        | none => extractNextValueRest text start
      else
        extractNextValueRest text start

/-- Python `Parser._extract_reference`: strip, then decode a leading
multi-quote string when one parses; otherwise return the text unchanged. -/
def extractReference (text : List Char) : List Char :=
  let t := pyStrip text
  match t.head? with
  | none => t
  | some c =>
    if quoteChars.contains c then
      let n := countLeading c t
      if n < t.length then
        match parseMultiQuoteString t c n with
        | some r => r
        | none => t
      else t
    else t

/-- Python `str.split()`: split on runs of whitespace, dropping empty words. -/
def pySplitAux : List Char → List Char → List (List Char)
  | [], cur => if cur = [] then [] else [cur]
  | c :: rest, cur =>
    if isPyWs c then
      if cur = [] then pySplitAux rest [] else cur :: pySplitAux rest []
    else
      pySplitAux rest (cur ++ [c])

/-- Python `str.split()` with no separator argument. -/
def pySplit (s : List Char) : List (List Char) := pySplitAux s []

/-- Python `Parser._extract_multi_reference_id`: a quoted id stays a single
(scalar) reference via `_extract_reference`; otherwise the id is split on
whitespace — one word gives a scalar, any other number of words a list. -/
def extractMultiReferenceId (text : List Char) : RefId :=
  match (pyStrip text).head? with
  | some c =>
    if quoteChars.contains c then
      .scalar (extractReference (pyStrip text))
    else
      match pySplit (pyStrip text) with
      | [p] => .scalar p
      | ps => .multi ps
  | none =>
    match pySplit (pyStrip text) with
    | [p] => .scalar p
    | ps => .multi ps

/-- Characters skipped between values by `_parse_values` (only these four —
line 304 of `parser.py`). -/
def isSkipWs (c : Char) : Bool := c = ' ' ∨ c = '\t' ∨ c = '\n' ∨ c = '\r'

mutual

/-- Python `Parser._parse_values`: split `text` into a list of parsed values.
The fuel decreases on every recursive call; the wrappers pass enough for any
execution (each loop iteration advances the cursor). -/
def parseValues (fuel : Nat) (text : List Char) : List RawItem :=
  match fuel with
  | 0 => []
  | f + 1 => parseValuesLoop f text 0

/-- Loop of `Parser._parse_values`: skip whitespace, extract the next value,
parse it when its stripped text is non-empty, and advance (by one character
when no progress was made). -/
def parseValuesLoop (fuel : Nat) (text : List Char) (i : Nat) : List RawItem :=
  match fuel with
  | 0 => []
  | f + 1 =>
    let j := i + ((text.drop i).takeWhile isSkipWs).length
    if j ≥ text.length then []
    else
      let ev := extractNextValue text j
      let iNext := if ev.1 = j then j + 1 else ev.1
      if ev.2 ≠ [] ∧ pyStrip ev.2 ≠ [] then
        parseValue f ev.2 :: parseValuesLoop f text iNext
      else
        parseValuesLoop f text iNext

/-- Python `Parser._parse_value`: a parenthesised value is parsed as a nested
link, anything else becomes a simple reference dict `{"id": ref}` (note: no
`"values"` key). -/
def parseValue (fuel : Nat) (v : List Char) : RawItem :=
  match fuel with
  | 0 => .mk (some (.scalar (extractReference v))) none [] false false
  | f + 1 =>
    if v.head? = some '(' ∧ v.getLast? = some ')' then
      parseParenthesized f (pyStrip ((v.drop 1).dropLast))
    else
      .mk (some (.scalar (extractReference v))) none [] false false

/-- Python `Parser._parse_parenthesized`: content between parentheses, either
`id: values` (colon found outside quotes and nested parens) or a bare value
list. -/
def parseParenthesized (fuel : Nat) (inner : List Char) : RawItem :=
  match fuel with
  | 0 => .mk none (some []) [] false false
  | f + 1 =>
    match findColonOutsideQuotes inner with
    | some cp =>
      let idPart := pyStrip (inner.take cp)
      let valuesPart := pyStrip (inner.drop (cp + 1))
      let mr := extractMultiReferenceId idPart
      .mk (some mr) (some (parseValues f valuesPart)) [] false mr.isMultiGt1
    | none => .mk none (some (parseValues f inner)) [] false false

end

/-- Fuel bound for the value-level mutual recursion on a text of length `L`:
the recursion depth of any terminating Python execution is below `4*L + 8`. -/
def valueFuel (content : List Char) : Nat := 4 * content.length + 8

/-- Python `Parser._parse_line_content`: a fully parenthesised line, an
indented-id line (`… :`), a single-line `id: values` link (only when the line
does not start with `"` or `'`), or a plain value list. -/
def parseLineContent (content : List Char) : RawItem :=
  if content.head? = some '(' ∧ content.getLast? = some ')' then
    parseParenthesized (valueFuel content) (pyStrip ((content.drop 1).dropLast))
  else if content.getLast? = some ':' then
    let mr := extractMultiReferenceId (pyStrip content.dropLast)
    .mk (some mr) (some []) [] true mr.isMultiGt1
  else if content.contains ':' ∧
      ¬(content.head? = some '\x22' ∨ content.head? = some '\x27') then
    match findColonOutsideQuotes content with
    | some cp =>
      let idPart := pyStrip (content.take cp)
      let valuesPart := pyStrip (content.drop (cp + 1))
      let mr := extractMultiReferenceId idPart
      .mk (some mr) (some (parseValues (valueFuel content) valuesPart)) [] false mr.isMultiGt1
    | none => .mk none (some (parseValues (valueFuel content) content)) [] false false
  else
    .mk none (some (parseValues (valueFuel content) content)) [] false false

/-- The lazy base-indentation update at the top of `Parser._parse_element`
(`if self.base_indentation is None and line.strip(): self.base_indentation =
raw_indent`). -/
def baseUpdate (base : Option Nat) (line : List Char) : Option Nat :=
  if base = none ∧ pyStrip line ≠ [] then some (rawIndentOf line) else base

/-- Python `max(0, raw_indent - (self.base_indentation or 0))` (the `max` is
the truncation of Nat subtraction; `base or 0` is 0 for both `None` and 0). -/
def normIndent (rawInd : Nat) (base : Option Nat) : Nat := rawInd - base.getD 0

mutual

/-- Python `Parser._parse_element`: parse the line at `pos` (if its normalized
indentation is at least `currentIndent`), then gather more-indented lines as
children. Returns `(element, new_pos, new_base)`, with the outer `none`
signalling fuel exhaustion (the Python children loop can genuinely fail to
terminate, e.g. on a child indented by exactly one space). -/
def parseElement (fuel : Nat) (lines : List (List Char)) (pos : Nat) (base : Option Nat)
    (currentIndent : Nat) : Option (Option RawItem × Nat × Option Nat) :=
  match fuel with
  | 0 => none
  | f + 1 =>
    match lines[pos]? with
    | none => some (none, pos, base)
    | some line =>
      if normIndent (rawIndentOf line) (baseUpdate base line) < currentIndent then
        some (none, pos, baseUpdate base line)
      else if pyStrip line = [] then
        some (none, pos + 1, baseUpdate base line)
      else
        match childLoop f lines (pos + 1) (baseUpdate base line)
            (normIndent (rawIndentOf line) (baseUpdate base line)) [] with
        | none => none
        | some (children, pos2, base2) =>
          some (some (if !children.isEmpty then
              (parseLineContent (pyStrip line)).withChildren children
            else parseLineContent (pyStrip line)), pos2, base2)

/-- Children loop of `Parser._parse_element`: while the next line is non-blank
and more indented than the current element, parse it as a child. The expected
child indentation is `indent + 2` in both Python branches
(`child_indent if not children else indent + 2` with `child_indent = indent + 2`). -/
def childLoop (fuel : Nat) (lines : List (List Char)) (pos : Nat) (base : Option Nat)
    (indent : Nat) (children : List RawItem) :
    Option (List RawItem × Nat × Option Nat) :=
  match fuel with
  | 0 => none
  | f + 1 =>
    match lines[pos]? with
    | none => some (children, pos, base)
    | some nextLine =>
      if pyStrip nextLine ≠ [] ∧ normIndent (rawIndentOf nextLine) base > indent then
        match parseElement f lines pos base (indent + 2) with
        | none => none
        | some (child, pos2, base2) =>
          childLoop f lines pos2 base2 indent
            (children ++ (match child with | some c => [c] | none => []))
      else some (children, pos, base)

end

/-- Python `Parser._parse_document`: loop over the lines, skipping blank ones
and collecting the non-`None` elements. -/
def parseDocumentLoop (fuel : Nat) (lines : List (List Char)) (pos : Nat)
    (base : Option Nat) : Option (List RawItem) :=
  match fuel with
  | 0 => none
  | f + 1 =>
    match lines[pos]? with
    | none => some []
    | some line =>
      if pyStrip line ≠ [] then
        match parseElement f lines pos base 0 with
        | none => none
        | some (e, pos2, base2) =>
          match parseDocumentLoop f lines pos2 base2 with
          | none => none
          | some rest => some ((match e with | some el => [el] | none => []) ++ rest)
      else
        parseDocumentLoop f lines (pos + 1) base

/-- Fuel bound for the line-level loops: a terminating Python execution of
`_parse_document` makes fewer than `2 * lines + 8` calls along any chain. -/
def docFuel (lines : List (List Char)) : Nat := 2 * lines.length + 8

/-- Python `" ".join(parts)`. -/
def joinSpace (parts : List (List Char)) : List Char := List.intercalate [' '] parts

/-- Python dict assignment `d[k] = v` for the insertion-ordered
`multi_ref_definitions` dict: an existing key keeps its position and gets the
new value, a new key is appended. -/
def dictInsert (d : List (List Char × List (List Char))) (k : List Char)
    (v : List (List Char)) : List (List Char × List (List Char)) :=
  if d.any (fun e => e.1 == k) then
    d.map (fun e => if e.1 = k then (k, v) else e)
  else d ++ [(k, v)]

/-- Python `Parser._collect_multi_ref_definitions`: walk the items from left
to right, storing every list-valued id with more than one part under its
space-joined key, then recursing into the item's children and values. The
fuel bounds the tree depth (the sibling walk is the fold). -/
def collectMultiRefDefinitions : Nat → List (List Char × List (List Char)) →
    List RawItem → List (List Char × List (List Char))
  | 0, acc, _ => acc
  | f + 1, acc, items =>
    items.foldl (fun a it =>
      let a1 := match it.idOpt with
        | some (.multi ps) => if ps.length > 1 then dictInsert a (joinSpace ps) ps else a
        | _ => a
      let a2 := collectMultiRefDefinitions f a1 it.children
      collectMultiRefDefinitions f a2 (it.valuesOpt.getD [])) acc

/-- Python `Parser._is_simple_reference`: a dict whose id is a string, with no
values and no children. -/
def isSimpleReference (it : RawItem) : Bool :=
  (match it.idOpt with | some (.scalar _) => true | _ => false)
    && (it.valuesOpt.getD []).isEmpty && it.children.isEmpty

/-- Stable insertion of an entry into a list sorted by descending part-count:
the entry goes before the first strictly shorter one, so equal lengths keep
their original relative order — the behaviour of Python's stable
`sorted(..., key=lambda x: len(x[1]), reverse=True)`. -/
def insertDescByLen (x : List Char × List (List Char)) :
    List (List Char × List (List Char)) → List (List Char × List (List Char))
  | [] => [x]
  | y :: ys => if y.2.length ≤ x.2.length then x :: y :: ys else y :: insertDescByLen x ys

/-- Python `sorted(defs.items(), key=lambda x: len(x[1]), reverse=True)`:
a stable sort by descending number of parts. -/
def sortDescByLen : List (List Char × List (List Char)) →
    List (List Char × List (List Char))
  | [] => []
  | x :: xs => insertDescByLen x (sortDescByLen xs)

/-- Whether the definition `parts` matches the run of values at the front of
`vals`: every value is a simple reference whose id equals the corresponding
part (Python: `not _is_simple_reference(value) or value.get("id") != part`). -/
def matchesRun : List (List Char) → List RawItem → Bool
  | [], _ => true
  | _ :: _, [] => false
  | p :: ps, v :: vs =>
    (isSimpleReference v &&
      (match v.idOpt with | some (.scalar s) => s == p | _ => false))
      && matchesRun ps vs

/-- Iteration of `Parser._try_match_multi_ref` over the sorted definitions:
skip definitions longer than the remaining values, return the first one whose
parts all match, together with the consumed count. -/
def tryMatchAux : List (List Char × List (List Char)) → List RawItem →
    Option (List (List Char) × Nat)
  | [], _ => none
  | (_, parts) :: rest, vals =>
    if parts.length ≤ vals.length ∧ matchesRun parts vals then
      some (parts, parts.length)
    else tryMatchAux rest vals

/-- Python `Parser._try_match_multi_ref` on the value suffix starting at the
current index: definitions are tried longest first. -/
def tryMatchMultiRef (defs : List (List Char × List (List Char)))
    (vals : List RawItem) : Option (List (List Char) × Nat) :=
  tryMatchAux (sortDescByLen defs) vals

mutual

/-- Python `Parser._transform_link` on a raw dict: a reference dict (id key,
no values key) becomes `Link(id)`; a dict with values transforms them (with
multi-reference recognition when enabled and definitions exist); otherwise
`Link(item.get("id"))`. -/
def transformLink (fuel : Nat) (enableCtx : Bool)
    (defs : List (List Char × List (List Char))) (item : RawItem) : Link :=
  match fuel with
  | 0 => .mk none []
  | f + 1 =>
    match item.valuesOpt with
    | none =>
      match item.idOpt with
      | some r => .mk (some (refIdParts r)) []
      | none => .mk none []
    | some vs =>
      let values :=
        if enableCtx ∧ defs ≠ [] then
          transformValuesWithMultiRefContext f enableCtx defs vs
        else vs.map (transformLink f enableCtx defs)
      .mk (item.idOpt.map refIdParts) values

/-- Python `Parser._transform_values_with_multi_ref_context`: walk the values;
at a simple reference, try to match a known multi-reference starting there and
collapse the matched run into a single `Link(multi_ref)`; otherwise transform
the value normally. -/
def transformValuesWithMultiRefContext (fuel : Nat) (enableCtx : Bool)
    (defs : List (List Char × List (List Char))) (vals : List RawItem) : List Link :=
  match fuel with
  | 0 => []
  | f + 1 =>
    match vals with
    | [] => []
    | v :: rest =>
      if isSimpleReference v then
        match tryMatchMultiRef defs (v :: rest) with
        | some m =>
          Link.mk (some m.1) [] ::
            transformValuesWithMultiRefContext f enableCtx defs ((v :: rest).drop m.2)
        | none =>
          transformLink f enableCtx defs v ::
            transformValuesWithMultiRefContext f enableCtx defs rest
      else
        transformLink f enableCtx defs v ::
          transformValuesWithMultiRefContext f enableCtx defs rest

end

/-- Python `Parser._combine_path_elements` on the reversed path: the source
recurses on `path[:-1]` with `path[-1]`, which is structural recursion on the
reversed list. -/
def combinePathRev : List Link → Link → Link
  | [], current => current
  | [p], current => .mk none [p, current]
  | lastE :: p :: rest, current => .mk none [combinePathRev (p :: rest) lastE, current]

/-- Python `Parser._combine_path_elements`: nest the path elements, then pair
the result with the current link in an id-less compound link. -/
def combinePathElements (path : List Link) (current : Link) : Link :=
  combinePathRev path.reverse current

/-- Python `Parser._collect_links`: the indented-id special case builds a
link from the children's single values directly (the intermediate dict's
values are then `Link` objects, which `_transform_link` and the multi-ref
context walker pass through unchanged); an item with children is emitted and
then each child is collected with the item appended to the path; a leaf is
emitted on its own. Every emitted link is combined with the parent path when
one exists. -/
def collectLinks (fuel : Nat) (enableCtx : Bool)
    (defs : List (List Char × List (List Char))) (item : RawItem)
    (parentPath : List Link) : List Link :=
  match fuel with
  | 0 => []
  | f + 1 =>
    let children := item.children
    let special : Option Link :=
      match item.idOpt with
      | some rid =>
        if item.isIndentedId && rid.truthy && (item.valuesOpt.getD []).isEmpty
            && !children.isEmpty then
          some (Link.mk (some (refIdParts rid)) (children.map (fun child =>
            match child.valuesOpt with
            | some [v] => transformLink f enableCtx defs v
            | _ => transformLink f enableCtx defs child)))
        else none
      | none => none
    match special with
    | some current =>
      [if parentPath.isEmpty then current else combinePathElements parentPath current]
    | none =>
      if !children.isEmpty then
        let current := transformLink f enableCtx defs item
        (if parentPath.isEmpty then current else combinePathElements parentPath current)
          :: (children.map (fun c => collectLinks f enableCtx defs c (parentPath ++ [current]))).flatten
      else
        let current := transformLink f enableCtx defs item
        [if parentPath.isEmpty then current else combinePathElements parentPath current]

mutual

/-- Size of a raw item: dominates both the depth of the tree below it and the
length of every list in it. -/
def rawItemSize : RawItem → Nat
  | .mk _ none ch _ _ => 1 + rawListSize ch
  | .mk _ (some vs) ch _ _ => 1 + rawListSize vs + rawListSize ch

/-- Size of a list of raw items. -/
def rawListSize : List RawItem → Nat
  | [] => 1
  | x :: xs => 1 + rawItemSize x + rawListSize xs

end

/-- Fuel bound for the transform stage: `rawListSize` dominates both the depth
of the raw tree and the length of every value list in it. -/
def transformFuel (raw : List RawItem) : Nat := rawListSize raw + 2

/-- Python `Parser._transform_result`: collect the multi-reference definitions
(first pass, only when enabled), then collect links from every item (second
pass). Returns the definitions dict together with the links, mirroring the
mutation of `self.multi_ref_definitions` plus the returned list. -/
def transformResult (enableCtx : Bool) (raw : List RawItem) :
    List (List Char × List (List Char)) × List Link :=
  let defs := if enableCtx then collectMultiRefDefinitions (transformFuel raw) [] raw else []
  (defs, (raw.map (fun it => collectLinks (transformFuel raw) enableCtx defs it [])).flatten)

/-- Constructor arguments of `Parser.__init__` (`max_depth` is stored — and,
faithfully to the source, never read by any parsing function). -/
structure ParserConfig where
  maxInputSize : Nat := 10 * 1024 * 1024
  maxDepth : Nat := 1000
  enableMultiRefContext : Bool := true

/-- The mutable fields a `Parser` instance carries between `parse` calls. -/
structure ParserState where
  indentationStack : List Nat
  pos : Nat
  text : List Char
  lines : List (List Char)
  baseIndentation : Option Nat
  multiRefDefinitions : List (List Char × List (List Char))

/-- The state set up by `Parser.__init__`. -/
def initState : ParserState :=
  { indentationStack := [0], pos := 0, text := [], lines := [],
    baseIndentation := none, multiRefDefinitions := [] }

/-- Errors of the embedded `parse`: the `ValueError` for oversize input, and
fuel exhaustion standing for a non-terminating parse loop. (`TypeError` for
non-string input cannot arise: the input type is `String`/`List Char`.) -/
inductive PErr where
  | inputTooLarge
  | diverged
deriving DecidableEq, Repr

/-- Python `Parser.parse`: validate the size, clear the multi-reference
definitions, return `[]` for empty or all-whitespace input, otherwise split
into logical lines, parse the document and transform the result. -/
def parse (cfg : ParserConfig) (st : ParserState) (input : List Char) :
    ParserState × Except PErr (List Link) :=
  if input.length > cfg.maxInputSize then
    (st, .error .inputTooLarge)
  else
    let st1 := { st with multiRefDefinitions := [] }
    if input = [] ∨ pyStrip input = [] then (st1, .ok [])
    else
      let lines := splitLinesRespectingQuotes input
      let st2 := { st1 with
        text := input
        lines := lines
        pos := 0
        indentationStack := [0]
        baseIndentation := none }
      match parseDocumentLoop (docFuel lines) lines 0 none with
      | none => (st2, .error .diverged)
      | some raw =>
        let tr := transformResult cfg.enableMultiRefContext raw
        ({ st2 with multiRefDefinitions := tr.1 }, .ok tr.2)

/-- Parse a string with a fresh parser, keeping only the result. -/
def parseString (cfg : ParserConfig) (s : String) : Except PErr (List Link) :=
  (parse cfg initState s.data).2

instance {ε α : Type} [DecidableEq ε] [DecidableEq α] : DecidableEq (Except ε α) :=
  fun a b =>
    match a, b with
    | .ok x, .ok y =>
      if h : x = y then isTrue (by rw [h]) else isFalse (by intro he; injection he; contradiction)
    | .error x, .error y =>
      if h : x = y then isTrue (by rw [h]) else isFalse (by intro he; injection he; contradiction)
    | .ok _, .error _ => isFalse (by intro h; injection h)
    | .error _, .ok _ => isFalse (by intro h; injection h)

/-- Error raised by the `Link.id` property: the `ValueError` directing the
caller to `ids` when the identity has more than one part, or Python's
`IndexError` from `self._ids[0]` when the stored list is empty. -/
inductive IdAccessError where
  | multiRef (n : Nat)
  | indexError
deriving DecidableEq, Repr

/-- Python `Link.id` property: `None` when there is no identity; an error
directing to `ids` when `len(self._ids) > 1`; otherwise `self._ids[0]`
(which raises `IndexError` on an empty list). -/
def Link.idAccessor : Link → Except IdAccessError (Option (List Char))
  | .mk none _ => .ok none
  | .mk (some ids) _ =>
    if ids.length > 1 then .error (.multiRef ids.length)
    else
      match ids with
      | [] => .error .indexError
      | x :: _ => .ok (some x)

/-- Characters that force single-quote wrapping in `Link.escape_reference`. -/
def singleQuoteTriggers : List Char := [':', '(', ')', ' ', '\t', '\n', '\r', '\x22']

/-- Python `Link.escape_reference` on a plain string: empty or all-whitespace
gives `""`; a string containing a single-quote trigger is wrapped in single
quotes; else one containing a single quote is wrapped in double quotes; else
the string is returned bare. -/
def escapeReferenceStr (s : List Char) : List Char :=
  if s = [] ∨ pyStrip s = [] then []
  else if singleQuoteTriggers.any (fun c => s.contains c) then
    '\x27' :: (s ++ ['\x27'])
  else if s.contains '\x27' then
    '\x22' :: (s ++ ['\x22'])
  else s

/-- Python `Link.escape_reference` on a list (multi-reference): escape each
part and join with spaces. -/
def escapeReferenceList (ps : List (List Char)) : List Char :=
  List.intercalate [' '] (ps.map escapeReferenceStr)

/-- Python `Link.needs_parentheses` on a list: multi-reference arrays need
parentheses exactly when they have more than one part. -/
def needsParenthesesList (ps : List (List Char)) : Bool := ps.length > 1

/-- Python `Link.needs_parentheses` on a string: non-empty and containing a
space, colon or parenthesis. -/
def needsParenthesesStr (s : List Char) : Bool :=
  s ≠ [] && [' ', ':', '(', ')'].any (fun c => s.contains c)

/-- Shift a line right by `k` spaces. -/
def prepK (k : Nat) (l : List Char) : List Char := List.replicate k ' ' ++ l

/-- Shift every physical line of a text right by `k` spaces (split on every
newline character, indent each piece, rejoin). -/
def shiftLinesPhysical (k : Nat) (s : List Char) : List Char :=
  List.intercalate ['\n'] ((s.splitOn '\n').map (prepK k))

/-- A simple-reference raw item, Python's `{"id": ref}`. -/
def refItem (s : List Char) : RawItem := .mk (some (.scalar s)) none [] false false

/-- Concrete multi-reference dictionary with a 2-word and a 3-word definition
sharing a prefix. -/
def c4defs : List (List Char × List (List Char)) :=
  [("a b".data, ["a".data, "b".data]),
   ("a b c".data, ["a".data, "b".data, "c".data])]

/-- Concrete run of three plain single-word values. -/
def c4vals : List RawItem := [refItem ("a".data), refItem ("b".data), refItem ("c".data)]

/-! Theorems. -/

/-- The parse result never depends on the incoming mutable parser state:
`parse` resets every scratch field and clears `multi_ref_definitions` before
using them. -/
theorem parse_result_ignores_state (cfg : ParserConfig) (st st' : ParserState)
    (input : List Char) : (parse cfg st input).2 = (parse cfg st' input).2 := by
  unfold parse
  by_cases h1 : input.length > cfg.maxInputSize
  · simp only [if_pos h1]
  · simp only [if_neg h1]
    by_cases h2 : input = [] ∨ pyStrip input = []
    · simp only [if_pos h2]
    · simp only [if_neg h2]

/-- C6: multi-reference definitions (and any other mutable state) collected
while parsing `t1` never influence a later `parse` call: parsing `t2` after
`t1` on the same parser gives exactly the result of a freshly constructed
parser with the same configuration parsing `t2`. -/
theorem claim_C6 (cfg : ParserConfig) (st : ParserState) (t1 t2 : List Char) :
    (parse cfg (parse cfg st t1).1 t2).2 = (parse cfg initState t2).2 :=
  parse_result_ignores_state cfg (parse cfg st t1).1 initState t2

/-- C10: an input whose `strip` is empty parses to the empty list of links
(no error, no link for the blank content), and an input longer than
`max_input_size` raises the size error before that check (so even a blank
oversize input errors). The `TypeError` branch for non-string input is
enforced by the embedding's input type. -/
theorem claim_C10 (cfg : ParserConfig) (st : ParserState) (input : List Char) :
    (input.length ≤ cfg.maxInputSize → pyStrip input = [] →
      (parse cfg st input).2 = Except.ok []) ∧
    (input.length > cfg.maxInputSize →
      (parse cfg st input).2 = Except.error PErr.inputTooLarge) := by
  constructor
  · intro hle hstrip
    unfold parse
    rw [if_neg (by omega)]
    simp [hstrip]
  · intro hgt
    unfold parse
    rw [if_pos hgt]

/-- Witness for C10 at a concrete whitespace-only input. -/
theorem claim_C10_witness :
    (parse {} initState ("  \n ").data).2 = Except.ok [] :=
  (claim_C10 {} initState ("  \n ").data).1 (by decide) (by decide)

/-- C9 counterexample: the link produced by parsing `(: v)` (and equally
`Link([])` built through the public constructor) holds the empty identity
list — zero parts — yet reading the scalar accessor raises (Python's
`IndexError` from `self._ids[0]`), refuting the claimed "raises if and only
if the identity has more than one part". -/
theorem claim_C9_counterexample :
    parseString {} "(: v)" =
      Except.ok [Link.mk (some []) [Link.mk (some ["v".data]) []]] ∧
    (Link.mk (some []) [Link.mk (some ["v".data]) []]).idAccessor =
      Except.error IdAccessError.indexError ∧
    ¬ 1 < ((Link.mk (some []) [Link.mk (some ["v".data]) []]).ids.getD []).length := by
  exact ⟨by decide, rfl, by decide⟩

/-- C9 (amended): for every link whose identity is not the empty list, the
scalar accessor raises exactly when the identity has more than one part (and
that error is the one directing the caller to the `ids` accessor, carrying
the part count); an absent identity gives `None`; a one-part identity gives
that part, never a coerced multi-part value. (A `Link` holding an empty
identity list instead raises `IndexError`.) -/
theorem claim_C9 (l : Link) (h : l.ids ≠ some []) :
    ((∃ e, l.idAccessor = Except.error e) ↔ 1 < (l.ids.getD []).length) ∧
    (l.ids = none → l.idAccessor = Except.ok none) ∧
    (∀ x, l.ids = some [x] → l.idAccessor = Except.ok (some x)) ∧
    (∀ ids, l.ids = some ids → 1 < ids.length →
      l.idAccessor = Except.error (IdAccessError.multiRef ids.length)) := by
  obtain ⟨ids?, vals⟩ := l
  cases ids? with
  | none =>
    refine ⟨?_, fun _ => rfl, ?_, ?_⟩
    · simp [Link.idAccessor, Link.ids]
    · intro x hx; simp [Link.ids] at hx
    · intro ids hx; simp [Link.ids] at hx
  | some ids =>
    match ids with
    | [] => exact absurd rfl h
    | [x] =>
      refine ⟨?_, ?_, ?_, ?_⟩
      · simp [Link.idAccessor, Link.ids]
      · intro hx; simp [Link.ids] at hx
      · intro y hy
        simp only [Link.ids, Option.some.injEq, List.cons.injEq, and_true] at hy
        subst hy; rfl
      · intro ids2 hids2 hlen
        simp only [Link.ids, Option.some.injEq] at hids2
        subst hids2; simp at hlen
    | x :: y :: rest =>
      refine ⟨?_, ?_, ?_, ?_⟩
      · constructor
        · intro _
          simp only [Link.ids, Option.getD_some, List.length_cons]
          omega
        · intro _
          exact ⟨IdAccessError.multiRef (x :: y :: rest).length,
            by simp [Link.idAccessor]⟩
      · intro hx; simp [Link.ids] at hx
      · intro z hz; simp [Link.ids] at hz
      · intro ids2 hids2 hlen
        simp only [Link.ids, Option.some.injEq] at hids2
        subst hids2
        simp [Link.idAccessor]

/-- Witness for C9 at a two-part identity. -/
theorem claim_C9_witness :
    (Link.mk (some [['a'], ['b']]) []).idAccessor =
      Except.error (IdAccessError.multiRef 2) :=
  (claim_C9 (Link.mk (some [['a'], ['b']]) []) (by decide)).2.2.2
    [['a'], ['b']] rfl (by decide)

/-- C8 counterexample: the reference `" "` contains a space, so the claim
says it is wrapped in single quotes, but `escape_reference` returns the empty
string for any whitespace-only (or empty) reference. -/
theorem claim_C8_counterexample :
    ([' '].contains ' ' = true) ∧ escapeReferenceStr [' '] = [] ∧
    escapeReferenceStr [' '] ≠ '\x27' :: ([' '] ++ ['\x27']) := by
  exact ⟨rfl, rfl, by decide⟩

/-- C8 (amended): for every reference string that is neither empty nor
whitespace-only, `escape_reference` wraps it in single quotes if it contains
a space, colon, parenthesis, tab, newline, carriage return or double quote,
else in double quotes if it contains a single quote, else returns it bare;
empty and whitespace-only references give the empty string. A multi-part
identity is escaped part-wise joined by spaces, and an identity of more than
one part always needs parentheses when inlined. -/
theorem claim_C8 (s a b : List Char) (ps : List (List Char)) :
    (pyStrip s ≠ [] →
      escapeReferenceStr s =
        if singleQuoteTriggers.any (fun c => s.contains c) then '\x27' :: (s ++ ['\x27'])
        else if s.contains '\x27' then '\x22' :: (s ++ ['\x22'])
        else s) ∧
    (pyStrip s = [] → escapeReferenceStr s = []) ∧
    escapeReferenceList [a, b] = escapeReferenceStr a ++ ' ' :: escapeReferenceStr b ∧
    (1 < ps.length → needsParenthesesList ps = true) := by
  refine ⟨?_, ?_, ?_, ?_⟩
  · intro hne
    unfold escapeReferenceStr
    rw [if_neg]
    rintro (rfl | hws)
    · exact hne rfl
    · exact hne hws
  · intro hws
    unfold escapeReferenceStr
    rw [if_pos (Or.inr hws)]
  · simp [escapeReferenceList, List.intercalate, List.intersperse]
  · intro hlen
    simp [needsParenthesesList, hlen]

/-- Witness for C8 at concrete references. -/
theorem claim_C8_witness :
    escapeReferenceStr ("a b".data) = '\x27' :: ("a b".data ++ ['\x27']) ∧
    needsParenthesesList [['a'], ['b']] = true := by
  constructor
  · have h := (claim_C8 ("a b".data) [] [] []).1 (by decide)
    simpa using h
  · exact (claim_C8 [] [] [] [['a'], ['b']]).2.2.2 (by decide)

/-- C3 (exhibiting the code bug): `max_depth` is stored by `__init__` but
never consulted by any parsing function, so a parser configured with
`max_depth = 2` parses an input of parenthesis nesting depth 4 successfully
instead of raising. -/
theorem claim_C3 :
    (parse { maxDepth := 2 } initState ("((((x))))").data).2 =
      Except.ok [Link.mk none [Link.mk none [Link.mk none [Link.mk none
        [Link.mk (some ["x".data]) []]]]]] := by decide

/-- Characterisation of the colon search: a returned index points at a colon
whose scanner state (obtained by folding `scanStep` over the preceding
characters) has all quote flags clear and parenthesis depth zero. -/
theorem findColonAux_spec :
    ∀ (l : List Char) (st : ScanSt) (i j : Nat), findColonAux l st i = some j →
      ∃ k, j = i + k ∧ l[k]? = some ':' ∧
        ((l.take k).foldl scanStep st).quotesClear = true ∧
        ((l.take k).foldl scanStep st).depth = 0 := by
  intro l
  induction l with
  | nil => intro st i j h; simp [findColonAux] at h
  | cons c rest ih =>
    intro st i j h
    rw [findColonAux] at h
    split at h
    · rename_i hcond
      obtain ⟨hc, hcl, hd⟩ := hcond
      have hij : j = i := by injection h with h'; omega
      subst hij
      refine ⟨0, by omega, ?_, by simpa using hcl, by simpa using hd⟩
      simp [hc]
    · obtain ⟨k, hk, hget, hcl, hd⟩ := ih (scanStep st c) (i + 1) j h
      refine ⟨k + 1, by omega, ?_, ?_, ?_⟩
      · simpa [List.getElem?_cons_succ] using hget
      · simpa [List.take_succ_cons, List.foldl_cons] using hcl
      · simpa [List.take_succ_cons, List.foldl_cons] using hd

/-- C2: a colon returned by `_find_colon_outside_quotes` is always a colon of
the text whose scanner state is outside all three quote kinds and at
parenthesis depth exactly zero (so a colon nested in a balanced-parenthesis
span, which is scanned at positive depth, is never chosen); concretely,
`((str key) (obj_1: dict))` parses to a single outer link with no identity
whose values are the `(str key)` link and the `obj_1`-identified link — the
nested colon assigns no identity at the outer level. -/
theorem claim_C2 (text : List Char) (i : Nat)
    (h : findColonOutsideQuotes text = some i) :
    (text[i]? = some ':' ∧
      ((text.take i).foldl scanStep ScanSt.init).quotesClear = true ∧
      ((text.take i).foldl scanStep ScanSt.init).depth = 0) ∧
    parseString {} "((str key) (obj_1: dict))" =
      Except.ok [Link.mk none [Link.mk none [Link.mk (some ["str".data]) [],
        Link.mk (some ["key".data]) []],
        Link.mk (some ["obj_1".data]) [Link.mk (some ["dict".data]) []]]] := by
  constructor
  · obtain ⟨k, hk, hget, hcl, hd⟩ := findColonAux_spec text ScanSt.init 0 i h
    have hki : k = i := by omega
    subst hki
    exact ⟨hget, hcl, hd⟩
  · decide

/-- Witness for C2 at a concrete text containing a top-level colon. -/
theorem claim_C2_witness :
    (("a: b".data)[1]? = some ':' ∧
      ((("a: b".data).take 1).foldl scanStep ScanSt.init).quotesClear = true ∧
      ((("a: b".data).take 1).foldl scanStep ScanSt.init).depth = 0) ∧
    parseString {} "((str key) (obj_1: dict))" =
      Except.ok [Link.mk none [Link.mk none [Link.mk (some ["str".data]) [],
        Link.mk (some ["key".data]) []],
        Link.mk (some ["obj_1".data]) [Link.mk (some ["dict".data]) []]]] :=
  claim_C2 ("a: b".data) 1 (by decide)

/-- A non-empty replicate of `q` is no prefix of a list headed by `c ≠ q`. -/
theorem not_prefix_replicate_cons (q c : Char) (m : Nat) (hm : 1 ≤ m)
    (hne : q ≠ c) (l : List Char) :
    (List.replicate m q).isPrefixOf (c :: l) = false := by
  cases m with
  | zero => omega
  | succ k =>
    have hbeq : (q == c) = false := beq_eq_false_iff_ne.mpr hne
    rw [List.replicate_succ]
    simp [List.isPrefixOf, hbeq]

/-- The `2n`-replicate is no prefix of the `n`-replicate when `n ≥ 1`. -/
theorem not_prefix_replicate_double (q : Char) (n : Nat) (hn : 1 ≤ n) :
    (List.replicate (2 * n) q).isPrefixOf (List.replicate n q) = false := by
  by_contra hcon
  simp only [Bool.not_eq_false] at hcon
  have h3 := (List.isPrefixOf_iff_prefix.mp hcon).length_le
  simp only [List.length_replicate] at h3
  omega

/-- Every list is a Boolean prefix of itself. -/
theorem isPrefixOf_self (l : List Char) : l.isPrefixOf l = true :=
  List.isPrefixOf_iff_prefix.mpr (List.prefix_refl l)

/-- Loop-level round trip for multi-quote strings: scanning
`content ++ q^n` (with `q` not occurring in `content`) consumes all of
`content` literally and stops at the closing run, returning the accumulator
extended by `content`. -/
theorem mqsLoop_roundtrip (q : Char) (n : Nat) (hn : 1 ≤ n) :
    ∀ (content acc : List Char) (fuel : Nat), q ∉ content →
      content.length < fuel →
      mqsLoop q n fuel (content ++ List.replicate n q) acc = some (acc ++ content) := by
  intro content
  induction content with
  | nil =>
    intro acc fuel _ hf
    cases fuel with
    | zero => omega
    | succ f =>
      cases n with
      | zero => omega
      | succ m =>
        rw [List.nil_append, List.replicate_succ]
        rw [mqsLoop]
        rw [if_neg, if_pos, if_neg]
        · simp
        · rw [← List.replicate_succ]
          simp only [List.drop_replicate, Nat.sub_self, List.replicate_zero,
            List.head?_nil]
          intro hcon
          exact Option.noConfusion hcon
        · rw [← List.replicate_succ]
          exact isPrefixOf_self _
        · rw [← List.replicate_succ]
          intro hcon
          have := not_prefix_replicate_double q (m + 1) (by omega)
          rw [this] at hcon
          exact Bool.noConfusion hcon
  | cons c cs ih =>
    intro acc fuel hq hf
    have hqc : q ≠ c := fun hqq => hq (hqq ▸ List.mem_cons_self c cs)
    have hqcs : q ∉ cs := fun hm => hq (List.mem_cons_of_mem c hm)
    cases fuel with
    | zero => omega
    | succ f =>
      rw [List.cons_append]
      rw [mqsLoop]
      rw [if_neg, if_neg]
      · rw [ih (acc ++ [c]) f hqcs (by simpa using Nat.lt_of_succ_lt_succ hf)]
        simp
      · intro hcon
        rw [not_prefix_replicate_cons q c n hn hqc] at hcon
        exact Bool.noConfusion hcon
      · intro hcon
        rw [not_prefix_replicate_cons q c (2 * n) (by omega) hqc] at hcon
        exact Bool.noConfusion hcon

/-- Round trip for `_parse_multi_quote_string`: `n` quotes, then text free of
the quote character, then `n` quotes decode to exactly that text. -/
theorem parseMultiQuoteString_roundtrip (q : Char) (n : Nat) (hn : 1 ≤ n)
    (content : List Char) (hq : q ∉ content) :
    parseMultiQuoteString (List.replicate n q ++ (content ++ List.replicate n q)) q n
      = some content := by
  unfold parseMultiQuoteString
  rw [if_pos (List.isPrefixOf_iff_prefix.mpr (List.prefix_append _ _))]
  rw [List.drop_left' (List.length_replicate n q)]
  rw [mqsLoop_roundtrip q n hn content [] _ hq (by simp [List.length_append]; omega)]
  simp

/-- C1: multi-quote strings are fully general in `N`. For every `N ≥ 1` and
every quote character (the hypothesis restricts to the three the parser
recognises, though the round trip holds for any character), a string opened
and closed by `N` quotes with quote-free text between decodes to exactly that
text; through the whole pipeline, `parse(Q^N + "text" + Q^N)` for `N = 1..5`
and each quote character yields one link with the single scalar value
`"text"`; a run of `2N` inside decodes to `N` literal quote characters
(`"ab""cd"` gives the scalar `ab"cd`); and a run of exactly `N` followed by a
non-quote terminates the string (`''ab'' x` gives the scalars `ab` and `x`). -/
theorem claim_C1 (q : Char) (n : Nat) (content : List Char)
    (hq : q ∈ quoteChars) (hn : 1 ≤ n) (hcontent : q ∉ content) :
    parseMultiQuoteString (List.replicate n q ++ (content ++ List.replicate n q)) q n
      = some content ∧
    (∀ m ∈ [1, 2, 3, 4, 5], ∀ qc ∈ quoteChars,
      (parse {} initState
          (List.replicate m qc ++ ("text".data ++ List.replicate m qc))).2
        = Except.ok [Link.mk none [Link.mk (some ["text".data]) []]]) ∧
    parseString {} "\"ab\"\"cd\"" =
      Except.ok [Link.mk none
        [Link.mk (some [['a', 'b', '\x22', 'c', 'd']]) []]] ∧
    parseString {} "''ab'' x" =
      Except.ok [Link.mk none [Link.mk (some ["ab".data]) [],
        Link.mk (some ["x".data]) []]] := by
  refine ⟨parseMultiQuoteString_roundtrip q n hn content hcontent, by decide,
    by decide, by decide⟩

/-- Witness for C1 at `N = 2`, double quotes, text `xy`. -/
theorem claim_C1_witness :
    parseMultiQuoteString
        (List.replicate 2 '\x22' ++ ("xy".data ++ List.replicate 2 '\x22')) '\x22' 2
      = some ("xy".data) :=
  (claim_C1 '\x22' 2 ("xy".data) (by decide) (by decide) (by decide)).1

/-- C5: identity shape resolution by `_extract_multi_reference_id` — a
pre-colon segment that starts (after stripping) with a quote character stays
a single scalar produced by `_extract_reference`, never split regardless of
internal spaces; an unquoted segment of one word is a scalar of that word;
an unquoted segment of more than one word is the multi-part list of its
words; and `parse("(some example: value)")` yields one link with multi-part
identity `["some", "example"]` and the single child `value`. -/
theorem claim_C5 (txt : List Char) :
    (∀ c, (pyStrip txt).head? = some c → quoteChars.contains c = true →
      extractMultiReferenceId txt = RefId.scalar (extractReference (pyStrip txt))) ∧
    (∀ c p, (pyStrip txt).head? = some c → quoteChars.contains c = false →
      pySplit (pyStrip txt) = [p] → extractMultiReferenceId txt = RefId.scalar p) ∧
    (∀ c ps, (pyStrip txt).head? = some c → quoteChars.contains c = false →
      pySplit (pyStrip txt) = ps → 1 < ps.length →
      extractMultiReferenceId txt = RefId.multi ps) ∧
    parseString {} "(some example: value)" =
      Except.ok [Link.mk (some ["some".data, "example".data])
        [Link.mk (some ["value".data]) []]] := by
  refine ⟨?_, ?_, ?_, by decide⟩
  · intro c hc hquote
    simp only [extractMultiReferenceId, hc, if_pos hquote]
  · intro c p hc hquote hsplit
    have hne : ¬ (quoteChars.contains c = true) := by rw [hquote]; exact Bool.false_ne_true
    simp only [extractMultiReferenceId, hc, if_neg hne, hsplit]
  · intro c ps hc hquote hsplit hlen
    have hne : ¬ (quoteChars.contains c = true) := by rw [hquote]; exact Bool.false_ne_true
    simp only [extractMultiReferenceId, hc, if_neg hne, hsplit]
    match ps, hlen with
    | p :: q :: rest, _ => rfl

/-- Witness for C5 at the unquoted two-word identity `some example`. -/
theorem claim_C5_witness :
    extractMultiReferenceId ("some example".data) =
      RefId.multi ["some".data, "example".data] :=
  (claim_C5 ("some example".data)).2.2.1 's' ["some".data, "example".data]
    (by decide) (by decide) (by decide) (by decide)

/-- Membership in a stable descending insertion. -/
theorem mem_insertDescByLen (x b : List Char × List (List Char)) :
    ∀ l, b ∈ insertDescByLen x l ↔ b = x ∨ b ∈ l := by
  intro l
  induction l with
  | nil => simp [insertDescByLen]
  | cons y ys ih =>
    rw [insertDescByLen]
    by_cases hc : y.2.length ≤ x.2.length
    · rw [if_pos hc]
      simp [List.mem_cons]
    · rw [if_neg hc]
      simp only [List.mem_cons, ih]
      tauto

/-- Stable descending insertion preserves sortedness by descending length. -/
theorem sorted_insertDescByLen (x : List Char × List (List Char)) :
    ∀ l, List.Sorted (fun a b : List Char × List (List Char) =>
        b.2.length ≤ a.2.length) l →
      List.Sorted (fun a b : List Char × List (List Char) =>
        b.2.length ≤ a.2.length) (insertDescByLen x l) := by
  intro l
  induction l with
  | nil => intro _; simp [insertDescByLen]
  | cons y ys ih =>
    intro h
    rw [List.sorted_cons] at h
    obtain ⟨hy, hys⟩ := h
    rw [insertDescByLen]
    by_cases hc : y.2.length ≤ x.2.length
    · rw [if_pos hc, List.sorted_cons]
      refine ⟨?_, List.sorted_cons.mpr ⟨hy, hys⟩⟩
      intro b hb
      rcases List.mem_cons.mp hb with rfl | hbys
      · exact hc
      · exact le_trans (hy b hbys) hc
    · rw [if_neg hc, List.sorted_cons]
      refine ⟨?_, ih hys⟩
      intro b hb
      rcases (mem_insertDescByLen x b ys).mp hb with rfl | hbys
      · omega
      · exact hy b hbys

/-- Stable descending insertion is a permutation of consing. -/
theorem perm_insertDescByLen (x : List Char × List (List Char)) :
    ∀ l, (insertDescByLen x l).Perm (x :: l) := by
  intro l
  induction l with
  | nil => exact List.Perm.refl _
  | cons y ys ih =>
    rw [insertDescByLen]
    by_cases hc : y.2.length ≤ x.2.length
    · rw [if_pos hc]
    · rw [if_neg hc]
      exact (ih.cons y).trans (List.Perm.swap x y ys)

/-- The sorted definition list is a permutation of the original. -/
theorem sortDescByLen_perm :
    ∀ l : List (List Char × List (List Char)), (sortDescByLen l).Perm l := by
  intro l
  induction l with
  | nil => exact List.Perm.refl _
  | cons x xs ih =>
    rw [sortDescByLen]
    exact (perm_insertDescByLen x (sortDescByLen xs)).trans (ih.cons x)

/-- The sorted definition list is sorted by descending length. -/
theorem sortDescByLen_sorted :
    ∀ l : List (List Char × List (List Char)),
      List.Sorted (fun a b : List Char × List (List Char) =>
        b.2.length ≤ a.2.length) (sortDescByLen l) := by
  intro l
  induction l with
  | nil => simp [sortDescByLen]
  | cons x xs ih =>
    rw [sortDescByLen]
    exact sorted_insertDescByLen x (sortDescByLen xs) ih

/-- A matching definition never has more parts than there are values left. -/
theorem matchesRun_length_le :
    ∀ (ps : List (List Char)) (vs : List RawItem),
      matchesRun ps vs = true → ps.length ≤ vs.length := by
  intro ps
  induction ps with
  | nil => intro vs _; simp
  | cons p ps ih =>
    intro vs h
    cases vs with
    | nil => simp [matchesRun] at h
    | cons v vs =>
      simp only [matchesRun, Bool.and_eq_true] at h
      have := ih vs h.2
      simp only [List.length_cons]
      omega

/-- On a list sorted by descending length, the first match returned by the
`_try_match_multi_ref` iteration has maximal length among all matching
entries, and the consumed count equals the match's part count. -/
theorem tryMatchAux_spec :
    ∀ (l : List (List Char × List (List Char))) (vals : List RawItem)
      (parts : List (List Char)) (consumed : Nat),
      List.Sorted (fun a b : List Char × List (List Char) =>
        b.2.length ≤ a.2.length) l →
      tryMatchAux l vals = some (parts, consumed) →
      consumed = parts.length ∧ (∃ k, (k, parts) ∈ l) ∧
        ∀ e ∈ l, matchesRun e.2 vals = true → e.2.length ≤ parts.length := by
  intro l
  induction l with
  | nil => intro vals parts consumed _ h; simp [tryMatchAux] at h
  | cons kp rest ih =>
    intro vals parts consumed hsorted h
    obtain ⟨k0, p0⟩ := kp
    rw [List.sorted_cons] at hsorted
    obtain ⟨hhead, htail⟩ := hsorted
    rw [tryMatchAux] at h
    split at h
    · rename_i hcond
      have hpc : p0 = parts ∧ p0.length = consumed := by
        have h' := h
        injection h' with h''
        exact ⟨congrArg Prod.fst h'', congrArg Prod.snd h''⟩
      obtain ⟨hp, hcons⟩ := hpc
      subst hp
      refine ⟨hcons.symm, ⟨k0, List.mem_cons_self _ _⟩, ?_⟩
      intro e he _
      rcases List.mem_cons.mp he with rfl | he'
      · exact le_refl _
      · exact hhead e he'
    · rename_i hcond
      obtain ⟨hcons, ⟨k, hk⟩, hall⟩ := ih vals parts consumed htail h
      refine ⟨hcons, ⟨k, List.mem_cons_of_mem _ hk⟩, ?_⟩
      intro e he hm
      rcases List.mem_cons.mp he with rfl | he'
      · exact absurd ⟨matchesRun_length_le _ _ hm, hm⟩ hcond
      · exact hall e he' hm

/-- C4: whenever `_try_match_multi_ref` matches a run of values, the consumed
count is the matched definition's part count, the matched parts are one of
the known definitions, and no other known definition matching at the same
position is longer — definitions are tried longest first; concretely, with a
3-word definition `a b c` and a 2-word definition `a b` sharing a prefix, the
value run `a b c` collapses into the single 3-word MultiPart identity. -/
theorem claim_C4 (defs : List (List Char × List (List Char)))
    (vals : List RawItem) (parts : List (List Char)) (consumed : Nat)
    (h : tryMatchMultiRef defs vals = some (parts, consumed)) :
    (consumed = parts.length ∧ (∃ k, (k, parts) ∈ defs) ∧
      ∀ e ∈ defs, matchesRun e.2 vals = true → e.2.length ≤ parts.length) ∧
    parseString {} "(a b c: x)\n(a b: y)\n(p: a b c)" =
      Except.ok [Link.mk (some ["a".data, "b".data, "c".data])
          [Link.mk (some ["x".data]) []],
        Link.mk (some ["a".data, "b".data]) [Link.mk (some ["y".data]) []],
        Link.mk (some ["p".data])
          [Link.mk (some ["a".data, "b".data, "c".data]) []]] := by
  refine ⟨?_, by decide⟩
  obtain ⟨hcons, ⟨k, hk⟩, hall⟩ :=
    tryMatchAux_spec (sortDescByLen defs) vals parts consumed
      (sortDescByLen_sorted defs) h
  refine ⟨hcons, ⟨k, (sortDescByLen_perm defs).mem_iff.mp hk⟩, ?_⟩
  intro e he hm
  exact hall e ((sortDescByLen_perm defs).mem_iff.mpr he) hm

/-- Witness for C4 at the concrete dictionary and value run. -/
theorem claim_C4_witness :
    (3 = (["a".data, "b".data, "c".data] : List (List Char)).length ∧
      (∃ k, (k, ["a".data, "b".data, "c".data]) ∈ c4defs) ∧
      ∀ e ∈ c4defs, matchesRun e.2 c4vals = true →
        e.2.length ≤ (["a".data, "b".data, "c".data] : List (List Char)).length) ∧
    parseString {} "(a b c: x)\n(a b: y)\n(p: a b c)" =
      Except.ok [Link.mk (some ["a".data, "b".data, "c".data])
          [Link.mk (some ["x".data]) []],
        Link.mk (some ["a".data, "b".data]) [Link.mk (some ["y".data]) []],
        Link.mk (some ["p".data])
          [Link.mk (some ["a".data, "b".data, "c".data]) []]] :=
  claim_C4 c4defs c4vals ["a".data, "b".data, "c".data] 3 (by decide)

/-- Dropping Python whitespace removes a prepended run of spaces. -/
theorem dropWhile_prepK (k : Nat) (l : List Char) :
    List.dropWhile isPyWs (prepK k l) = List.dropWhile isPyWs l := by
  induction k with
  | zero => rfl
  | succ m ih =>
    rw [prepK, List.replicate_succ, List.cons_append, List.dropWhile_cons]
    rw [if_pos (by decide : isPyWs ' ' = true)]
    exact ih

/-- Stripping is invariant under a uniform shift of the line. -/
theorem pyStrip_prepK (k : Nat) (l : List Char) :
    pyStrip (prepK k l) = pyStrip l := by
  unfold pyStrip
  rw [dropWhile_prepK]

/-- The raw indentation of a shifted line grows by exactly the shift. -/
theorem rawIndentOf_prepK (k : Nat) (l : List Char) :
    rawIndentOf (prepK k l) = rawIndentOf l + k := by
  induction k with
  | zero => simp [prepK]
  | succ m ih =>
    rw [prepK, List.replicate_succ, List.cons_append]
    rw [rawIndentOf, List.takeWhile_cons]
    rw [if_pos (by decide : (' ' == ' ') = true)]
    simp only [List.length_cons]
    rw [← rawIndentOf, ← prepK, ih]
    omega

/-- The base update commutes with a uniform shift. -/
theorem baseUpdate_prepK (k : Nat) (base : Option Nat) (line : List Char) :
    baseUpdate (base.map (· + k)) (prepK k line) = (baseUpdate base line).map (· + k) := by
  cases base with
  | some b => simp [baseUpdate]
  | none =>
    by_cases hs : pyStrip line = []
    · simp [baseUpdate, pyStrip_prepK, hs]
    · simp [baseUpdate, pyStrip_prepK, rawIndentOf_prepK, hs]

/-- Normalized indentation is invariant when both the raw indentation and the
base grow by the same shift. -/
theorem normIndent_shift (k raw b : Nat) :
    normIndent (raw + k) (some (b + k)) = normIndent raw (some b) := by
  simp only [normIndent, Option.getD_some]
  omega

/-- A base indentation that is already set is never updated. -/
theorem baseUpdate_some (b : Nat) (line : List Char) :
    baseUpdate (some b) line = some b := by
  simp [baseUpdate]

/-- Once `base_indentation` is set it stays fixed through `_parse_element`
and its children loop. -/
theorem parse_base_const (fuel : Nat) :
    (∀ lines pos b ci r, parseElement fuel lines pos (some b) ci = some r →
      r.2.2 = some b) ∧
    (∀ lines pos b ind ch r, childLoop fuel lines pos (some b) ind ch = some r →
      r.2.2 = some b) := by
  induction fuel with
  | zero =>
    constructor
    · intro lines pos b ci r h
      simp [parseElement] at h
    · intro lines pos b ind ch r h
      simp [childLoop] at h
  | succ f ih =>
    obtain ⟨ihE, ihC⟩ := ih
    constructor
    · intro lines pos b ci r h
      simp only [parseElement] at h
      cases hl : lines[pos]? with
      | none =>
        simp only [hl] at h
        injection h with h2
        subst h2
        rfl
      | some line =>
        simp only [hl, baseUpdate_some] at h
        split at h
        · injection h with h2; subst h2; rfl
        · split at h
          · injection h with h2; subst h2; rfl
          · cases hc : childLoop f lines (pos + 1) (some b)
                (normIndent (rawIndentOf line) (some b)) [] with
            | none =>
              simp only [hc] at h
              exact Option.noConfusion h
            | some cres =>
              simp only [hc] at h
              obtain ⟨children, pos2, base2⟩ := cres
              injection h with h2
              subst h2
              exact ihC lines (pos + 1) b _ [] (children, pos2, base2) hc
    · intro lines pos b ind ch r h
      simp only [childLoop] at h
      cases hl : lines[pos]? with
      | none =>
        simp only [hl] at h
        injection h with h2
        subst h2
        rfl
      | some nextLine =>
        simp only [hl] at h
        split at h
        · cases hp : parseElement f lines pos (some b) (ind + 2) with
          | none =>
            simp only [hp] at h
            exact Option.noConfusion h
          | some pres =>
            simp only [hp] at h
            obtain ⟨child, pos2, base2⟩ := pres
            have hb2 : base2 = some b :=
              ihE lines pos b (ind + 2) (child, pos2, base2) hp
            subst hb2
            exact ihC lines pos2 b ind _ r h
        · injection h with h2; subst h2; rfl

/-- Shift invariance of the line-level parser: running `_parse_element` (or
its children loop) on uniformly right-shifted lines with a correspondingly
shifted base indentation produces the same elements at the same positions,
with the resulting base shifted. The side condition `base.isSome ∨ ci = 0`
holds at every call site (the document loop always passes indentation 0, and
the children loop always runs with the base already set). -/
theorem parse_shift_inv (k : Nat) (fuel : Nat) :
    (∀ lines pos base ci,
      (base.isSome = true ∨ ci = 0) →
      parseElement fuel (lines.map (prepK k)) pos (base.map (· + k)) ci =
        (parseElement fuel lines pos base ci).map
          (fun r => (r.1, r.2.1, r.2.2.map (· + k)))) ∧
    (∀ lines pos b ind ch,
      childLoop fuel (lines.map (prepK k)) pos (some (b + k)) ind ch =
        (childLoop fuel lines pos (some b) ind ch).map
          (fun r => (r.1, r.2.1, r.2.2.map (· + k)))) := by
  induction fuel with
  | zero =>
    constructor
    · intro lines pos base ci _
      simp [parseElement]
    · intro lines pos b ind ch
      simp [childLoop]
  | succ f ih =>
    obtain ⟨ihE, ihC⟩ := ih
    constructor
    · intro lines pos base ci H
      cases hl : lines[pos]? with
      | none =>
        have hl' : (lines.map (prepK k))[pos]? = none := by
          simp [List.getElem?_map, hl]
        simp only [parseElement, hl, hl', Option.map_some']
      | some line =>
        have hl' : (lines.map (prepK k))[pos]? = some (prepK k line) := by
          simp [List.getElem?_map, hl]
        simp only [parseElement, hl, hl']
        rw [baseUpdate_prepK k base line, pyStrip_prepK, rawIndentOf_prepK]
        cases hbu : baseUpdate base line with
        | some b2 =>
          simp only [Option.map_some']
          rw [normIndent_shift k (rawIndentOf line) b2]
          by_cases h1 : normIndent (rawIndentOf line) (some b2) < ci
          · rw [if_pos h1, if_pos h1]
            simp
          · rw [if_neg h1, if_neg h1]
            by_cases h2 : pyStrip line = []
            · rw [if_pos h2, if_pos h2]
              simp
            · rw [if_neg h2, if_neg h2]
              rw [ihC lines (pos + 1) b2 (normIndent (rawIndentOf line) (some b2)) []]
              cases hc : childLoop f lines (pos + 1) (some b2)
                  (normIndent (rawIndentOf line) (some b2)) [] with
              | none => simp
              | some cres =>
                obtain ⟨children, pos2, base2⟩ := cres
                simp
        | none =>
          have hbase : base = none := by
            cases base with
            | none => rfl
            | some b => rw [baseUpdate_some] at hbu; exact Option.noConfusion hbu
          subst hbase
          have hci : ci = 0 := by
            rcases H with hs | hc
            · simp at hs
            · exact hc
          subst hci
          have hblank : pyStrip line = [] := by
            by_contra hnb
            simp [baseUpdate, hnb] at hbu
          simp only [Option.map_none']
          rw [if_neg (Nat.not_lt_zero _), if_neg (Nat.not_lt_zero _)]
          rw [if_pos hblank, if_pos hblank]
          simp
    · intro lines pos b ind ch
      cases hl : lines[pos]? with
      | none =>
        have hl' : (lines.map (prepK k))[pos]? = none := by
          simp [List.getElem?_map, hl]
        simp only [childLoop, hl, hl', Option.map_some']
      | some nextLine =>
        have hl' : (lines.map (prepK k))[pos]? = some (prepK k nextLine) := by
          simp [List.getElem?_map, hl]
        simp only [childLoop, hl, hl']
        rw [pyStrip_prepK, rawIndentOf_prepK, normIndent_shift k (rawIndentOf nextLine) b]
        by_cases hg : pyStrip nextLine ≠ [] ∧ normIndent (rawIndentOf nextLine) (some b) > ind
        · rw [if_pos hg, if_pos hg]
          have hE := ihE lines pos (some b) (ind + 2) (Or.inl rfl)
          simp only [Option.map_some'] at hE
          rw [hE]
          cases hp : parseElement f lines pos (some b) (ind + 2) with
          | none => simp
          | some pres =>
            obtain ⟨child, pos2, base2⟩ := pres
            have hb2 : base2 = some b :=
              (parse_base_const f).1 lines pos b (ind + 2) (child, pos2, base2) hp
            subst hb2
            simp only [Option.map_some']
            exact ihC lines pos2 b ind _
        · rw [if_neg hg, if_neg hg]
          simp

/-- Shift invariance of the document loop: the raw parse trees of uniformly
right-shifted lines are identical to those of the unshifted lines. -/
theorem docLoop_shift (k : Nat) :
    ∀ (fuel : Nat) (lines : List (List Char)) (pos : Nat) (base : Option Nat),
      parseDocumentLoop fuel (lines.map (prepK k)) pos (base.map (· + k)) =
        parseDocumentLoop fuel lines pos base := by
  intro fuel
  induction fuel with
  | zero => intro lines pos base; simp [parseDocumentLoop]
  | succ f ih =>
    intro lines pos base
    cases hl : lines[pos]? with
    | none =>
      have hl' : (lines.map (prepK k))[pos]? = none := by
        simp [List.getElem?_map, hl]
      simp only [parseDocumentLoop, hl, hl']
    | some line =>
      have hl' : (lines.map (prepK k))[pos]? = some (prepK k line) := by
        simp [List.getElem?_map, hl]
      simp only [parseDocumentLoop, hl, hl']
      rw [pyStrip_prepK]
      by_cases hs : pyStrip line ≠ []
      · rw [if_pos hs, if_pos hs]
        rw [(parse_shift_inv k f).1 lines pos base 0 (Or.inr rfl)]
        cases hp : parseElement f lines pos base 0 with
        | none => simp
        | some pres =>
          obtain ⟨e, pos2, base2⟩ := pres
          simp only [Option.map_some']
          rw [ih lines pos2 base2]
      · rw [if_neg hs, if_neg hs]
        exact ih lines (pos + 1) base

/-- Characterisation of `parse` on validated, non-blank input: split the
text into logical lines, run the document loop, transform. -/
theorem parse_snd_nonempty (cfg : ParserConfig) (st : ParserState)
    (input : List Char) (h1 : ¬ input.length > cfg.maxInputSize)
    (h2 : ¬ (input = [] ∨ pyStrip input = [])) :
    (parse cfg st input).2 =
      match parseDocumentLoop (docFuel (splitLinesRespectingQuotes input))
          (splitLinesRespectingQuotes input) 0 none with
      | none => Except.error PErr.diverged
      | some raw => Except.ok (transformResult cfg.enableMultiRefContext raw).2 := by
  unfold parse
  simp only [if_neg h1, if_neg h2]
  cases hm : parseDocumentLoop (docFuel (splitLinesRespectingQuotes input))
      (splitLinesRespectingQuotes input) 0 none with
  | none => simp [hm]
  | some raw => simp [hm]

/-- C7 (amended): the first non-blank line's indentation becomes the base and
later indents are measured relative to it, so an input whose every logical
line (as produced by the quote- and parenthesis-respecting line splitting) is
uniformly shifted right by `k` spaces — with blankness preserved and both
inputs within the size limit — parses to exactly the same links as the
unshifted input. (Shifting physical lines is not sound when a quoted string
spans lines: the inserted spaces become part of the string value, see the
counterexample.) -/
theorem claim_C7 (cfg : ParserConfig) (input input' : List Char) (k : Nat)
    (hlines : splitLinesRespectingQuotes input' =
      (splitLinesRespectingQuotes input).map (prepK k))
    (hempty : (input' = [] ∨ pyStrip input' = []) ↔ (input = [] ∨ pyStrip input = []))
    (hsz : ¬ input.length > cfg.maxInputSize)
    (hsz' : ¬ input'.length > cfg.maxInputSize) :
    (parse cfg initState input').2 = (parse cfg initState input).2 := by
  by_cases he : input = [] ∨ pyStrip input = []
  · have he' := hempty.mpr he
    unfold parse
    simp only [if_neg hsz', if_pos he', if_neg hsz, if_pos he]
  · have he' : ¬ (input' = [] ∨ pyStrip input' = []) := fun h => he (hempty.mp h)
    rw [parse_snd_nonempty cfg initState input' hsz' he',
      parse_snd_nonempty cfg initState input hsz he]
    rw [hlines]
    have hF : docFuel ((splitLinesRespectingQuotes input).map (prepK k)) =
        docFuel (splitLinesRespectingQuotes input) := by simp [docFuel]
    rw [hF]
    have hD := docLoop_shift k (docFuel (splitLinesRespectingQuotes input))
        (splitLinesRespectingQuotes input) 0 none
    simp only [Option.map_none'] at hD
    rw [hD]

/-- Witness for C7: the 2-space and 4-space indented `parent/child` documents
parse identically. -/
theorem claim_C7_witness :
    (parse {} initState ("    parent:\n      child1\n      child2").data).2 =
      (parse {} initState ("parent:\n  child1\n  child2").data).2 :=
  claim_C7 {} ("parent:\n  child1\n  child2").data
    ("    parent:\n      child1\n      child2").data 4
    (by decide) (by decide) (by decide) (by decide)

/-- C7 counterexample: shifting every physical line of an input by two spaces
is not parse-invariant when a quoted string spans lines — the inserted spaces
land inside the string value (`a\nb` becomes `a\n  b`), refuting the claim
read over physical lines. -/
theorem claim_C7_counterexample :
    shiftLinesPhysical 2 ("'a\nb'".data) = ("  'a\n  b'".data) ∧
    parseString {} "  'a\n  b'" ≠ parseString {} "'a\nb'" := by
  constructor
  · decide
  · decide

end Lino
